import Mathlib

/-!
A verification development for the `mypy_eppy_builder` pipeline: an
EnergyPlus IDD parser (`idd_parser.py`) and a typed-stub emitter
(`typed_emitter.py`).

Strings are modelled as `List Char` (Python `str` restricted to its
ASCII behaviour: `isalnum`, `isdigit`, `lower`, `strip` are modelled on
the ASCII ranges; the source never relies on non-ASCII classes for the
inputs treated here).  All definitions are executable and mirror the
Python source line by line; the two outer scanning loops of the parser
carry an explicit fuel argument (set to `line count + 1` at entry, an
upper bound on the number of loop iterations, since every iteration
consumes at least one line), which keeps them structurally recursive.
-/

namespace EppyBuilder

/-! ### Python character and string primitives (ASCII model) -/

/-- Python `str.isdigit` on ASCII: `'0'..'9'`. -/
def pyIsDigit (c : Char) : Bool := 48 ≤ c.toNat && c.toNat ≤ 57

/-- ASCII uppercase letter `'A'..'Z'`. -/
def pyIsUpper (c : Char) : Bool := 65 ≤ c.toNat && c.toNat ≤ 90

/-- ASCII lowercase letter `'a'..'z'`. -/
def pyIsLower (c : Char) : Bool := 97 ≤ c.toNat && c.toNat ≤ 122

/-- Python `str.isalnum` on ASCII: a letter or a digit. -/
def pyIsAlnum (c : Char) : Bool := pyIsDigit c || pyIsUpper c || pyIsLower c

/-- Python whitespace (the ASCII part): space, tab, LF, CR, VT, FF. -/
def pyIsSpace (c : Char) : Bool :=
  c.toNat = 32 || c.toNat = 9 || c.toNat = 10 || c.toNat = 13 ||
  c.toNat = 11 || c.toNat = 12

/-- Python `str.lower` on one ASCII character. -/
def pyLowerChar (c : Char) : Char :=
  if 65 ≤ c.toNat ∧ c.toNat ≤ 90 then Char.ofNat (c.toNat + 32) else c

/-- Python `str.lower` over a string. -/
def pyLower (s : List Char) : List Char := s.map pyLowerChar

/-- Python `s.lstrip(chars)`: drop leading characters satisfying `p`. -/
def pyLStrip (p : Char → Bool) (s : List Char) : List Char := s.dropWhile p

/-- Python `s.strip(chars)`: drop leading and trailing characters
satisfying `p`. -/
def pyStripP (p : Char → Bool) (s : List Char) : List Char :=
  ((s.dropWhile p).reverse.dropWhile p).reverse

/-- Python `s.strip()` (whitespace). -/
def pyStrip (s : List Char) : List Char := pyStripP pyIsSpace s

/-- Python `s.startswith(pre)`. -/
def pyStartsWith (s pre : List Char) : Bool := pre.isPrefixOf s

/-- Python `needle in hay` (substring containment). -/
def pyIn (needle : List Char) : List Char → Bool
  | [] => needle.isEmpty
  | c :: rest => needle.isPrefixOf (c :: rest) || pyIn needle rest

/-- Python `s.split(sep)` for a one-character separator `sep`
(keeps empty pieces, as Python does). -/
def pySplitChar (sep : Char) : List Char → List (List Char)
  | [] => [[]]
  | c :: rest =>
    let r := pySplitChar sep rest
    if c = sep then [] :: r
    else (c :: r.headD []) :: r.tail

/-- Helper for `pySplitWS`: `cur` is the reversed current token. -/
def pySplitWSGo (cur : List Char) : List Char → List (List Char)
  | [] => if cur = [] then [] else [cur.reverse]
  | c :: rest =>
    if pyIsSpace c then
      if cur = [] then pySplitWSGo [] rest
      else cur.reverse :: pySplitWSGo [] rest
    else pySplitWSGo (c :: cur) rest

/-- Python `s.split()` (no argument): split on whitespace runs,
discarding empty pieces. -/
def pySplitWS (s : List Char) : List (List Char) := pySplitWSGo [] s

/-- Python `sep.join(parts)` for the one-character separator `'_'`
(used by the identifier synthesis helpers). -/
def pyJoinUnd : List (List Char) → List Char
  | [] => []
  | [g] => g
  | g :: gs => g ++ '_' :: pyJoinUnd gs

/-- Python `int(s)` on a string of ASCII digits. -/
def natOfDigits (s : List Char) : Nat :=
  s.foldl (fun n c => n * 10 + (c.toNat - 48)) 0

/-- Python `s.splitlines()` restricted to `'\n'` separators (the parser
reads text through `read_text`, which normalises newlines to `'\n'`).
A trailing empty piece is harmless: comment stripping discards it. -/
def pySplitLines (s : List Char) : List (List Char) := pySplitChar '\n' s

/-! ### Data model (`idd_parser.py`) -/

/-- `FieldKind`: the closed normalisation of `\type` directive values. -/
inductive FieldKind where
  | alpha | integer | real | boolean | choice | node | objectList | unknown
deriving DecidableEq, Repr

/-- One `\key` choice value: `str | int` in the source. -/
inductive ChoiceVal where
  | intVal (i : Int)
  | strVal (s : List Char)
deriving DecidableEq, Repr

/-- `IDDField`: one field of an IDD object (frozen dataclass). -/
structure IDDField where
  index : Nat
  name_raw : List Char
  kind : FieldKind
  choices : List ChoiceVal
  required : Bool
  allows_blank : Bool
  has_default : Bool
deriving DecidableEq, Repr

/-- `IDDObject`: one object definition (frozen dataclass). -/
structure IDDObject where
  key : List Char
  fields : List IDDField
deriving DecidableEq, Repr

/-! ### Parser (`idd_parser.py`) -/

/-- `_strip_comments`: truncate each line at the first `'!'`, strip
whitespace, drop lines that become empty. -/
def strip_comments (lines : List (List Char)) : List (List Char) :=
  lines.foldr
    (fun raw acc =>
      let s := pyStrip (raw.takeWhile (· ≠ '!'))
      if s = [] then acc else s :: acc)
    []

/-- `_extract_after`: the substring after `pre`, stripped of whitespace
and then of trailing/leading `','`, `';'`, `' '`. -/
def extract_after (line pre : List Char) : List Char :=
  pyStripP (fun c => c = ',' || c = ';' || c = ' ') (pyStrip (line.drop pre.length))

/-- `_normalize_kind`: the closed kind table with `unknown` fallback. -/
def normalize_kind (t : List Char) : FieldKind :=
  if t = "alpha".toList || t = "string".toList then .alpha
  else if t = "node".toList then .node
  else if t = "object-list".toList then .objectList
  else if t = "real".toList then .real
  else if t = "integer".toList then .integer
  else if t = "choice".toList then .choice
  else if t = "boolean".toList then .boolean
  else .unknown

/-- A digit group as Python's float grammar accepts it: non-empty
digits with single underscores sitting between two digits. -/
def groupOk : List Char → Bool
  | [] => false
  | [c] => pyIsDigit c
  | c :: '_' :: rest => pyIsDigit c && groupOk rest
  | c :: rest => pyIsDigit c && groupOk rest

/-- Numeric value of a digit group (underscores removed). -/
def digitsVal (g : List Char) : Nat := natOfDigits (g.filter (· ≠ '_'))

/-- Python `float(s)` as an exact decimal: `some (neg, m, e)` stands for
the value `±m·10^e`.  The model keeps the decimal value exactly (no IEEE
rounding), and folds `inf`/`nan` into `none`: in `_parse_choice`, the
only consumer, both a parse failure and a non-integral float return the
original string, so the observable behaviour agrees. -/
def pyFloat? (s : List Char) : Option (Bool × Nat × Int) :=
  let signBody : Bool × List Char :=
    match s with
    | '+' :: r => (false, r)
    | '-' :: r => (true, r)
    | r => (false, r)
  let neg := signBody.1
  let body := signBody.2
  let mant := body.takeWhile (fun c => c ≠ 'e' && c ≠ 'E')
  let erest := body.drop mant.length
  let expVal : Option Int :=
    match erest with
    | [] => some 0
    | _ :: etail =>
      let se : Bool × List Char :=
        match etail with
        | '+' :: r => (false, r)
        | '-' :: r => (true, r)
        | r => (false, r)
      if groupOk se.2 then
        some (if se.1 then -(digitsVal se.2 : Int) else (digitsVal se.2 : Int))
      else none
  match expVal with
  | none => none
  | some e =>
    let ip := mant.takeWhile (· ≠ '.')
    let drest := mant.drop ip.length
    match drest with
    | [] => if groupOk ip then some (neg, digitsVal ip, e) else none
    | _ :: frac =>
      if frac.any (· = '.') then none
      else if ip = [] && frac = [] then none
      else if (ip = [] || groupOk ip) && (frac = [] || groupOk frac) then
        let fl := (frac.filter (· ≠ '_')).length
        some (neg, digitsVal ip * 10 ^ fl + digitsVal frac, e - fl)
      else none

/-- `_parse_choice`: a pure digit string becomes an integer; otherwise a
float parse is attempted and an integral float is converted to an
integer; any other value keeps the trimmed string. -/
def parse_choice (val : List Char) : ChoiceVal :=
  let v := pyStrip val
  if v ≠ [] && v.all pyIsDigit then .intVal (natOfDigits v)
  else
    match pyFloat? v with
    | some (neg, m, e) =>
      if 0 ≤ e then
        .intVal ((if neg then -1 else 1) * ((m * 10 ^ e.toNat : Nat) : Int))
      else if m % 10 ^ (-e).toNat = 0 then
        .intVal ((if neg then -1 else 1) * ((m / 10 ^ (-e).toNat : Nat) : Int))
      else .strVal v
    | none => .strVal v

/-- The local variables of `_parse_field_block` while it scans
directives (the Python builds the field from locals and freezes it at
the end). -/
structure FieldState where
  index : Nat
  name_raw : List Char := "Field".toList
  kind : FieldKind := .unknown
  required : Bool := false
  allows_blank : Bool := false
  has_default : Bool := false
  choices : List ChoiceVal := []
deriving DecidableEq, Repr

/-- The header-index computation of `_parse_field_block`: first
whitespace token, digits after the leading letter, else 0. -/
def header_index (first_line : List Char) : Nat :=
  let idx_part := (pySplitWS first_line).headD []
  if idx_part.length > 1 && (idx_part.drop 1).all pyIsDigit then
    natOfDigits (idx_part.drop 1)
  else 0

/-- One directive line of `_parse_field_block`'s `elif` chain;
`\minimum`, `\maximum`, `\note` and unrecognized directives leave the
state unchanged. -/
def apply_directive (st : FieldState) (line : List Char) : FieldState :=
  if pyStartsWith line "\\field".toList then
    { st with name_raw := extract_after line "\\field".toList }
  else if pyStartsWith line "\\type".toList then
    { st with kind := normalize_kind (pyLower (extract_after line "\\type".toList)) }
  else if pyStartsWith line "\\required-field".toList
      || pyStartsWith line "\\required-object".toList then
    { st with required := true }
  else if pyStartsWith line "\\default".toList then
    { st with has_default := true }
  else if pyStartsWith line "\\minimum".toList || pyStartsWith line "\\maximum".toList then
    st
  else if pyStartsWith line "\\key".toList then
    { st with choices := st.choices ++ [parse_choice (extract_after line "\\key".toList)] }
  else if pyStartsWith line "\\blank".toList then
    { st with allows_blank := true }
  else
    st

/-- The final coercion and freeze of `_parse_field_block`: if choices
are present and the kind is not numeric or boolean, the kind becomes
`choice`. -/
def finalize_field (st : FieldState) : IDDField :=
  { index := st.index
    name_raw := st.name_raw
    kind :=
      if st.choices ≠ [] ∧ st.kind ≠ .integer ∧ st.kind ≠ .real ∧ st.kind ≠ .boolean then
        .choice
      else st.kind
    choices := st.choices
    required := st.required
    allows_blank := st.allows_blank
    has_default := st.has_default }

/-- The directive-scanning loop of `_parse_field_block`.

Faithfulness note: on reaching the next `A`/`N` header or a
`\begin-object` marker the Python runs `it = _pushback(it, (0, line))`
and breaks — but that rebinds only the function-local variable `it`;
the caller's iterator, from which `line` was already drawn, is
unaffected, so the boundary line is in fact consumed and lost.  The
embedding accordingly returns `rest` (the lines after the boundary
line) in every stopping case. -/
def parse_field_loop (st : FieldState) : List (List Char) → FieldState × List (List Char)
  | [] => (st, [])
  | line :: rest =>
    if pyStartsWith line "A".toList || pyStartsWith line "N".toList
        || pyStartsWith line "\\begin-object".toList then
      (st, rest)
    else if pyStartsWith line "\\end-object".toList then
      (st, rest)
    else
      parse_field_loop (apply_directive st line) rest

/-- `_parse_field_block`: index from the header line, then the
directive loop, then the freeze. -/
def parse_field_block (first_line : List Char) (rest : List (List Char)) :
    IDDField × List (List Char) :=
  let p := parse_field_loop { index := header_index first_line } rest
  (finalize_field p.1, p.2)

/-- The inner loop of `parse_idd` (capture fields until
`\end-object`).  `fuel` bounds the number of iterations; every
iteration consumes at least one line, so `fuel ≥ length` never runs
out. -/
def parse_body (fuel : Nat) : List (List Char) → List IDDField × List (List Char)
  | [] => ([], [])
  | l2 :: rest =>
    match fuel with
    | 0 => ([], l2 :: rest)
    | fuel + 1 =>
      if pyStartsWith l2 "\\end-object".toList then ([], rest)
      else if pyStartsWith l2 "A".toList || pyStartsWith l2 "N".toList then
        let p := parse_field_block l2 rest
        let q := parse_body fuel p.2
        (p.1 :: q.1, q.2)
      else parse_body fuel rest

/-- The outer loop of `parse_idd` (objects start at `\begin-object`). -/
def parse_objects (fuel : Nat) : List (List Char) → List IDDObject
  | [] => []
  | line :: rest =>
    match fuel with
    | 0 => []
    | fuel + 1 =>
      if pyStartsWith line "\\begin-object".toList then
        let key := extract_after line "\\begin-object".toList
        let p := parse_body fuel rest
        ⟨key, p.1⟩ :: parse_objects fuel p.2
      else parse_objects fuel rest

/-- `parse_idd`: decode (modelled as given text), strip comments, scan
objects.  The fuel `length + 1` strictly dominates the iteration count
of both loops. -/
def parse_idd (text : String) : List IDDObject :=
  let lines := strip_comments (pySplitLines text.toList)
  parse_objects (lines.length + 1) lines

/-! ### Emitter (`typed_emitter.py`)

Both emitters build a list of output lines and write `"\n".join(lines)`;
the artifact is modelled as that list of lines (each a `List Char`). -/

/-- The comparison Python's `sorted(objs, key=lambda o: o.key)` uses:
keys compared lexicographically by code point. -/
def keyLe (a b : IDDObject) : Prop := a.key ≤ b.key

/-- Strict version of `keyLe`. -/
def keyLt (a b : IDDObject) : Prop := a.key < b.key

instance : DecidableRel keyLe := fun a b => inferInstanceAs (Decidable (a.key ≤ b.key))

instance : DecidableRel keyLt := fun a b => inferInstanceAs (Decidable (a.key < b.key))

instance : IsTotal IDDObject keyLe := ⟨fun a b => le_total a.key b.key⟩

instance : IsTrans IDDObject keyLe := ⟨fun _ _ _ h1 h2 => le_trans h1 h2⟩

instance : IsAntisymm IDDObject keyLt :=
  ⟨fun a _b h1 h2 => absurd (lt_trans h1 h2) (lt_irrefl a.key)⟩

/-- Python `sorted(objs, key=lambda o: o.key)`: a stable sort by key
(any stable sort computes the same list; insertion sort with `≤` is
stable, inserting each earlier element before later equal keys). -/
def sortObjs (objs : List IDDObject) : List IDDObject := List.insertionSort keyLe objs

/-- `_kwargs_typeddict_name`: non-alphanumerics to `'_'`, collapse
underscore runs, append `_Kwargs`. -/
def kwargs_typeddict_name (key : List Char) : List Char :=
  let key_norm := key.map (fun ch => if pyIsAlnum ch then ch else '_')
  pyJoinUnd ((pySplitChar '_' key_norm).filter (· ≠ [])) ++ "_Kwargs".toList

/-- `_snake_case`: lowercase alphanumerics, others to `'_'`, collapse
underscore runs, prefix `'_'` when the result starts with a digit. -/
def snake_case (label : List Char) : List Char :=
  let s := label.map (fun ch => if pyIsAlnum ch then pyLowerChar ch else '_')
  let s := pyJoinUnd ((pySplitChar '_' s).filter (· ≠ []))
  if s ≠ [] ∧ pyIsDigit (s.headD ' ') then '_' :: s else s

/-- Python `repr` of a choice value as `_py_type` renders it: strings
in single quotes (exact for values free of quotes, backslashes and
control characters — all choice values treated here), integers bare. -/
def reprChoice : ChoiceVal → List Char
  | .intVal i => (toString i).toList
  | .strVal s => '\'' :: s ++ ['\'']

/-- Python `", ".join(elems)`. -/
def joinCommaSpace : List (List Char) → List Char
  | [] => []
  | [g] => g
  | g :: gs => g ++ ',' :: ' ' :: joinCommaSpace gs

/-- `_py_type`: the kind-to-annotation mapping. -/
def py_type (field : IDDField) : List Char :=
  if field.kind = .alpha ∨ field.kind = .node ∨ field.kind = .objectList then "str".toList
  else if field.kind = .integer then "int".toList
  else if field.kind = .real then "float".toList
  else if field.kind = .boolean then "bool".toList
  else if field.kind = .choice ∧ field.choices ≠ [] then
    "Literal[".toList ++ joinCommaSpace (field.choices.map reprChoice) ++ "]".toList
  else "str | float | int".toList

/-- The slot-type computation inlined in `emit_kwarg_typeddicts`: wrap
in `| None` when the field allows blank or has a default and is not
required, skipping the wrap when the string `"None"` already occurs in
the annotation (Python's `"None" not in typ` check). -/
def slot_type (f : IDDField) : List Char :=
  let typ := py_type f
  if (f.allows_blank || f.has_default) && !f.required then
    if pyIn "None".toList typ then typ else typ ++ " | None".toList
  else typ

/-- `Required`/`NotRequired` marker. -/
def req_marker (f : IDDField) : List Char :=
  if f.required then "Required".toList else "NotRequired".toList

/-- The two lines `emit_kwarg_typeddicts` writes per field: the comment
with the original name, and the slot declaration. -/
def field_lines (f : IDDField) : List (List Char) :=
  ["    # ".toList ++ f.name_raw,
   "    ".toList ++ snake_case f.name_raw ++ ": ".toList ++ req_marker f
     ++ "[".toList ++ slot_type f ++ "]".toList]

/-- The block `emit_kwarg_typeddicts` writes per object. -/
def obj_block (obj : IDDObject) : List (List Char) :=
  ("class ".toList ++ kwargs_typeddict_name obj.key ++ "(TypedDict, total=False):".toList)
    :: (if obj.fields = [] then ["    pass".toList, []]
        else obj.fields.flatMap field_lines ++ [[]])

/-- `emit_kwarg_typeddicts`: import preamble, optional header comment,
then one TypedDict block per object in sorted key order. -/
def emit_kwarg_typeddicts (objs : List IDDObject) (header : List Char) : List (List Char) :=
  ["from __future__ import annotations".toList,
   "from typing import TypedDict, Required, NotRequired, Literal".toList,
   []]
  ++ (if header ≠ [] then ["# ".toList ++ header, []] else [])
  ++ (sortObjs objs).flatMap obj_block

/-- The per-key overload signature line of `emit_idf_overloads`. -/
def sig_line (o : IDDObject) : List Char :=
  "    def newidfobject(self, key: Literal['".toList ++ o.key
    ++ "'], **kwargs: Unpack[".toList ++ kwargs_typeddict_name o.key
    ++ "]) -> EPBunch: ...".toList

/-- The trailing catch-all signature line of `emit_idf_overloads`. -/
def fallback_sig : List Char :=
  "    def newidfobject(self, key: str, **kwargs) -> EPBunch: ...".toList

/-- `emit_idf_overloads`: import preamble, the mixin class header, an
`@overload` pair per object in sorted key order, then the catch-all. -/
def emit_idf_overloads (objs : List IDDObject) : List (List Char) :=
  ["from __future__ import annotations".toList,
   "from typing import overload, Unpack, Literal".toList,
   "from .bunch import EPBunch".toList,
   "from ._kwargs import *".toList,
   [],
   "class _IDFOverloads:".toList]
  ++ (sortObjs objs).flatMap (fun o => ["    @overload".toList, sig_line o])
  ++ [fallback_sig, []]

/-! ### Observables used by the claims -/

/-- A signature line of the overload artifact: a method declaration
line (every one in this artifact declares `newidfobject`). -/
def is_sig (l : List Char) : Bool := pyStartsWith l "    def ".toList

/-- The top-level alternatives of a rendered union annotation, split at
`'|'` and stripped. -/
def union_alternatives (t : List Char) : List (List Char) :=
  (pySplitChar '|' t).map pyStrip

/-- Whether a rendered annotation admits the explicit absent value:
`None` occurs as a top-level union alternative. -/
def admits_none (t : List Char) : Bool :=
  (union_alternatives t).contains "None".toList

/-- A valid Python identifier (ASCII form): a letter or underscore,
then letters, digits or underscores. -/
def isValidIdentifier : List Char → Bool
  | [] => false
  | c :: rest =>
    (pyIsUpper c || pyIsLower c || c = '_') && rest.all (fun d => pyIsAlnum d || d = '_')

/-! ### Concrete inputs used by the claims -/

/-- The two-object end-to-end dictionary of the spec, one directive per
line: `ZONE` with fields Name (required, alpha), Direction of Relative
North (real, default) and Part of Total Floor Area (choice Yes/No,
blank), then `BUILDINGSURFACE:DETAILED` with a required Name field. -/
def exC1 : String :=
  "\\begin-object ZONE\nA1\n\\field Name\n\\required-field\n\\type alpha\nN1\n\\field Direction of Relative North\n\\type real\n\\default 0\nA2\n\\field Part of Total Floor Area\n\\type choice\n\\key Yes\n\\key No\n\\blank\n\\end-object\n\\begin-object BUILDINGSURFACE:DETAILED\nA1\n\\field Name\n\\required-field\n\\end-object\n"

/-- An object with two field header lines (`A1` and `N1`). -/
def exC2 : String :=
  "\\begin-object OBJ\nA1\n\\field First\nN1\n\\field Second\n\\end-object\n"

/-- The prefixes that make `_parse_field_block`'s loop stop or change
the field state (`\minimum`, `\maximum` and `\note` are recognized but
change nothing, so they need not be excluded when showing that a line
is ignored). -/
def handled_prefixes : List (List Char) :=
  ["A".toList, "N".toList, "\\begin-object".toList, "\\end-object".toList,
   "\\field".toList, "\\type".toList, "\\required-field".toList,
   "\\required-object".toList, "\\default".toList, "\\key".toList, "\\blank".toList]

/-- The eight type strings `_normalize_kind` recognizes. -/
def known_kind_strings : List (List Char) :=
  ["alpha".toList, "string".toList, "node".toList, "object-list".toList,
   "real".toList, "integer".toList, "choice".toList, "boolean".toList]

/-- The choice field of the end-to-end example, as the buggy parse
produces it (used to instantiate the choice/kind invariant). -/
def exChoiceField : IDDField :=
  ⟨2, "Part of Total Floor Area".toList, .choice,
   [.strVal "Yes".toList, .strVal "No".toList], false, true, false⟩

/-- A blank-allowed, non-required choice field whose single choice is
the literal string `None` (producible from a `\key None` directive). -/
def cexNoneField : IDDField :=
  ⟨0, "Flag".toList, .choice, [.strVal "None".toList], false, true, false⟩

/-- Two distinct objects sharing the key `A`. -/
def cexDupA1 : IDDObject :=
  ⟨"A".toList, [⟨1, "Name".toList, .alpha, [], true, false, false⟩]⟩

/-- The second object with key `A` (no fields). -/
def cexDupA2 : IDDObject := ⟨"A".toList, []⟩

end EppyBuilder

namespace EppyBuilder

/-! ### Helper lemmas -/

/-- An element named by `getLast?` is a member. -/
theorem mem_of_getLast?_eq {α : Type} : ∀ {l : List α} {a : α}, l.getLast? = some a → a ∈ l
  | [], _, h => by simp [List.getLast?] at h
  | [b], a, h => by
      simp [List.getLast?] at h
      simp [h]
  | b :: c :: l, a, h => by
      rw [List.getLast?_cons_cons] at h
      exact List.mem_cons_of_mem b (mem_of_getLast?_eq h)

/-- `pySplitChar` never returns the empty list of pieces. -/
theorem pySplitChar_ne_nil (sep : Char) : ∀ l : List Char, pySplitChar sep l ≠ [] := by
  intro l
  cases l with
  | nil => simp [pySplitChar]
  | cons c rest =>
    simp only [pySplitChar]
    split <;> simp

/-- Characters inside a `pySplitChar` piece come from the input and are
never the separator. -/
theorem pySplitChar_mem (sep : Char) :
    ∀ (l : List Char) (g : List Char) (c : Char),
      g ∈ pySplitChar sep l → c ∈ g → c ∈ l ∧ c ≠ sep := by
  intro l
  induction l with
  | nil =>
    intro g c hg hc
    simp [pySplitChar] at hg
    subst hg
    simp at hc
  | cons a rest ih =>
    intro g c hg hc
    by_cases ha : a = sep
    · rw [pySplitChar, if_pos ha] at hg
      rcases List.mem_cons.mp hg with h | h
      · subst h; simp at hc
      · have := ih g c h hc
        exact ⟨List.mem_cons_of_mem a this.1, this.2⟩
    · rw [pySplitChar, if_neg ha] at hg
      cases hr : pySplitChar sep rest with
      | nil => exact absurd hr (pySplitChar_ne_nil sep rest)
      | cons g0 gs =>
        rw [hr] at hg
        simp only [List.headD_cons, List.tail_cons] at hg
        rcases List.mem_cons.mp hg with h | h
        · subst h
          rcases List.mem_cons.mp hc with h | h
          · rw [h]; exact ⟨List.mem_cons_self a rest, ha⟩
          · have hg0 : g0 ∈ pySplitChar sep rest := by rw [hr]; exact List.mem_cons_self g0 gs
            have := ih g0 c hg0 h
            exact ⟨List.mem_cons_of_mem a this.1, this.2⟩
        · have hgs : g ∈ pySplitChar sep rest := by rw [hr]; exact List.mem_cons_of_mem g0 h
          have := ih g c hgs hc
          exact ⟨List.mem_cons_of_mem a this.1, this.2⟩

/-- When the input holds a non-separator character, some piece of
`pySplitChar` is non-empty. -/
theorem pySplitChar_exists_ne_nil (sep : Char) :
    ∀ l : List Char, (∃ c ∈ l, c ≠ sep) → ∃ g ∈ pySplitChar sep l, g ≠ [] := by
  intro l
  induction l with
  | nil => rintro ⟨c, hc, _⟩; simp at hc
  | cons a rest ih =>
    rintro ⟨c, hc, hcs⟩
    by_cases ha : a = sep
    · have hcr : c ∈ rest := by
        rcases List.mem_cons.mp hc with h | h
        · subst h; exact absurd ha hcs
        · exact h
      obtain ⟨g, hg, hgne⟩ := ih ⟨c, hcr, hcs⟩
      exact ⟨g, by rw [pySplitChar, if_pos ha]; exact List.mem_cons_of_mem [] hg, hgne⟩
    · refine ⟨a :: (pySplitChar sep rest).headD [], ?_, by simp⟩
      rw [pySplitChar, if_neg ha]
      exact List.mem_cons_self _ _

/-- `pySplitChar` yields at least two pieces when the separator occurs. -/
theorem pySplitChar_length_ge_two (sep : Char) :
    ∀ l : List Char, sep ∈ l → 2 ≤ (pySplitChar sep l).length := by
  intro l
  induction l with
  | nil => intro h; simp at h
  | cons a rest ih =>
    intro h
    by_cases ha : a = sep
    · rw [pySplitChar, if_pos ha]
      have := pySplitChar_ne_nil sep rest
      cases hr : pySplitChar sep rest with
      | nil => exact absurd hr this
      | cons g gs => simp
    · have hsep : sep ∈ rest := by
        rcases List.mem_cons.mp h with h' | h'
        · exact absurd h'.symm ha
        · exact h'
      rw [pySplitChar, if_neg ha]
      cases hr : pySplitChar sep rest with
      | nil => exact absurd hr (pySplitChar_ne_nil sep rest)
      | cons g gs =>
        have := ih hsep
        rw [hr] at this
        simpa using this

/-- Splitting a list with an explicit separator occurrence appended:
the last piece is the last piece of the part after that separator. -/
theorem pySplitChar_append_sep (sep : Char) :
    ∀ (l r : List Char),
      (pySplitChar sep (l ++ sep :: r)).getLast? = (pySplitChar sep r).getLast? := by
  intro l
  induction l with
  | nil =>
    intro r
    rw [List.nil_append, pySplitChar, if_pos rfl]
    cases hr : pySplitChar sep r with
    | nil => exact absurd hr (pySplitChar_ne_nil sep r)
    | cons g gs => rw [List.getLast?_cons_cons]
  | cons a l ih =>
    intro r
    by_cases ha : a = sep
    · rw [List.cons_append, pySplitChar, if_pos ha]
      cases hr : pySplitChar sep (l ++ sep :: r) with
      | nil => exact absurd hr (pySplitChar_ne_nil sep _)
      | cons g gs => rw [List.getLast?_cons_cons, ← hr, ih r]
    · rw [List.cons_append, pySplitChar, if_neg ha]
      have hsep : sep ∈ l ++ sep :: r := by
        exact List.mem_append_right l (List.mem_cons_self sep r)
      have hlen := pySplitChar_length_ge_two sep _ hsep
      cases hr : pySplitChar sep (l ++ sep :: r) with
      | nil => exact absurd hr (pySplitChar_ne_nil sep _)
      | cons g gs =>
        rw [hr] at hlen
        cases gs with
        | nil => simp at hlen
        | cons g1 gs1 =>
          simp only [List.headD_cons, List.tail_cons, List.getLast?_cons_cons]
          have := ih r
          rw [hr, List.getLast?_cons_cons] at this
          exact this

/-- Appending the rendered `" | None"` alternative always makes `None`
a top-level union alternative. -/
theorem admits_none_append (t : List Char) :
    admits_none (t ++ " | None".toList) = true := by
  have harr : t ++ " | None".toList = (t ++ [' ']) ++ '|' :: " None".toList := by
    simp only [List.append_assoc]
    rfl
  have hlast : (pySplitChar '|' (t ++ " | None".toList)).getLast? = some " None".toList := by
    rw [harr, pySplitChar_append_sep]
    decide
  have hmem : " None".toList ∈ pySplitChar '|' (t ++ " | None".toList) :=
    mem_of_getLast?_eq hlast
  have hmem2 : "None".toList ∈ union_alternatives (t ++ " | None".toList) := by
    have h3 := List.mem_map_of_mem pyStrip hmem
    have h4 : pyStrip " None".toList = "None".toList := by decide
    rw [h4] at h3
    exact h3
  simp only [admits_none, List.contains]
  exact List.elem_iff.mpr hmem2

/-- Every frozen field satisfies the choices/kind coercion. -/
theorem finalize_field_inv (st : FieldState) :
    (finalize_field st).choices ≠ [] →
    (finalize_field st).kind ≠ .integer → (finalize_field st).kind ≠ .real →
    (finalize_field st).kind ≠ .boolean → (finalize_field st).kind = .choice := by
  by_cases hC : st.choices ≠ [] ∧ st.kind ≠ .integer ∧ st.kind ≠ .real ∧ st.kind ≠ .boolean
  · intro _ _ _ _
    simp [finalize_field, hC]
  · simp only [finalize_field, if_neg hC]
    intro h1 h2 h3 h4
    exact absurd ⟨h1, h2, h3, h4⟩ hC

/-- Every field the body loop collects is a frozen field state. -/
theorem parse_body_fields (fuel : Nat) :
    ∀ (lines : List (List Char)) (f : IDDField),
      f ∈ (parse_body fuel lines).1 → ∃ st, f = finalize_field st := by
  induction fuel with
  | zero =>
    intro lines f hf
    cases lines with
    | nil => simp [parse_body] at hf
    | cons l2 rest => simp [parse_body] at hf
  | succ n ih =>
    intro lines f hf
    cases lines with
    | nil => simp [parse_body] at hf
    | cons l2 rest =>
      simp only [parse_body] at hf
      split at hf
      · simp at hf
      · split at hf
        · simp only [List.mem_cons] at hf
          rcases hf with h | h
          · exact ⟨_, h⟩
          · exact ih _ f h
        · exact ih _ f hf

/-- Every field of every parsed object is a frozen field state. -/
theorem parse_objects_fields (fuel : Nat) :
    ∀ (lines : List (List Char)) (o : IDDObject),
      o ∈ parse_objects fuel lines → ∀ f ∈ o.fields, ∃ st, f = finalize_field st := by
  induction fuel with
  | zero =>
    intro lines o ho
    cases lines with
    | nil => simp [parse_objects] at ho
    | cons l rest => simp [parse_objects] at ho
  | succ n ih =>
    intro lines o ho
    cases lines with
    | nil => simp [parse_objects] at ho
    | cons l rest =>
      simp only [parse_objects] at ho
      split at ho
      · rcases List.mem_cons.mp ho with h | h
        · subst h
          intro f hf
          exact parse_body_fields n rest f hf
        · exact ih _ o h
      · exact ih _ o ho

end EppyBuilder

namespace EppyBuilder

/-! ### The claims -/

/-- C1: the spec's end-to-end scenario says `parse` yields exactly two
objects, `ZONE` (fields Name, Direction of Relative North, Part of
Total Floor Area, in that order) and `BUILDINGSURFACE:DETAILED`.  The
code instead yields a single object: the ineffective push-back loses
the `N1` header (so Direction of Relative North vanishes), the field
block for `A2` consumes `ZONE`'s `\end-object`, and
`BUILDINGSURFACE:DETAILED`'s entire body is folded into `ZONE`.  This
theorem evaluates the parser at that scenario and exhibits the
divergence. -/
theorem C1_end_to_end_collapses :
    parse_idd exC1 =
      [⟨"ZONE".toList,
        [⟨1, "Name".toList, .alpha, [], true, false, false⟩,
         exChoiceField,
         ⟨1, "Name".toList, .unknown, [], true, false, false⟩]⟩]
    ∧ (parse_idd exC1).length ≠ 2 := by
  constructor
  · decide
  · decide

/-- C2: the spec says a field-block boundary line (next header or
begin-object) is pushed back and reprocessed, so every field header
line inside an object body produces its own field record.  The push
back rebinds only a local variable, so the boundary line is lost: in
`exC2` the two headers `A1` and `N1` produce a single field record. -/
theorem C2_pushback_is_ineffective :
    parse_idd exC2 =
      [⟨"OBJ".toList, [⟨1, "First".toList, .unknown, [], false, false, false⟩]⟩]
    ∧ ((parse_idd exC2).headD ⟨[], []⟩).fields.length = 1 := by
  constructor
  · decide
  · decide

/-- C3: the parser is permissive: a line matching no recognized prefix
is skipped without changing the field state, a header without a
parsable index yields index 0, and an unrecognized type directive
yields kind `unknown`; parsing itself is a total function of the text
(every Python exception site is guarded: `int` behind `isdigit`,
`float` behind `except ValueError`). -/
theorem C3_parser_is_permissive :
    (∀ (st : FieldState) (line : List Char) (rest : List (List Char)),
        (∀ p ∈ handled_prefixes, pyStartsWith line p = false) →
        parse_field_loop st (line :: rest) = parse_field_loop st rest)
    ∧ (∀ hdr : List Char,
        ¬(1 < ((pySplitWS hdr).headD []).length
            ∧ (((pySplitWS hdr).headD []).drop 1).all pyIsDigit = true) →
        header_index hdr = 0)
    ∧ (∀ t : List Char, t ∉ known_kind_strings → normalize_kind t = .unknown) := by
  refine ⟨?_, ?_, ?_⟩
  · intro st line rest h
    simp [handled_prefixes] at h
    obtain ⟨hA, hN, hB, hE, hF, hT, hR1, hR2, hD, hK, hBl⟩ := h
    simp [parse_field_loop, apply_directive, hA, hN, hB, hE, hF, hT, hR1, hR2, hD, hK, hBl]
  · intro hdr h
    rw [header_index, if_neg]
    simpa using h
  · intro t ht
    simp [known_kind_strings] at ht
    obtain ⟨h1, h2, h3, h4, h5, h6, h7, h8⟩ := ht
    simp [normalize_kind, h1, h2, h3, h4, h5, h6, h7, h8]

/-- C4: for every field record the parser produces, if its choices list
is non-empty and its kind is none of integer, real, boolean, then its
kind is `choice`. -/
theorem C4_choice_kind_invariant :
    ∀ (text : String), ∀ o ∈ parse_idd text, ∀ f ∈ o.fields,
      f.choices ≠ [] → f.kind ≠ .integer → f.kind ≠ .real → f.kind ≠ .boolean →
      f.kind = .choice := by
  intro text o ho f hf h1 h2 h3 h4
  obtain ⟨st, hst⟩ := parse_objects_fields _ _ o ho f hf
  subst hst
  exact finalize_field_inv st h1 h2 h3 h4

/-- Witness for C4: the choice field of the end-to-end example has
non-empty choices, a kind outside integer/real/boolean, and indeed kind
`choice`. -/
theorem C4_choice_kind_invariant_witness : exChoiceField.kind = .choice := by
  refine C4_choice_kind_invariant exC1 ⟨"ZONE".toList,
    [⟨1, "Name".toList, .alpha, [], true, false, false⟩,
     exChoiceField,
     ⟨1, "Name".toList, .unknown, [], true, false, false⟩]⟩
    (by decide) exChoiceField (by decide) (by decide) (by decide) (by decide) (by decide)

/-- C5 counterexample: for the non-required, blank-allowed field whose
choices are the literal string `None`, the Python substring check
`"None" not in typ` suppresses the wrap, and the emitted slot type
`Literal['None']` does not admit the absent value — neither did the
computed type, so the claim's guarantee fails at this field. -/
theorem C5_absent_value_counterexample :
    cexNoneField.required = false ∧ cexNoneField.allows_blank = true
    ∧ slot_type cexNoneField = "Literal['None']".toList
    ∧ slot_type cexNoneField = py_type cexNoneField
    ∧ admits_none (py_type cexNoneField) = false
    ∧ admits_none (slot_type cexNoneField) = false := by
  refine ⟨rfl, rfl, by decide, by decide, by decide, by decide⟩

/-- C5 (amended): for a non-required field with allowsBlank or
hasDefault the emitter appends the absent alternative `| None` —
making `None` a top-level union alternative — unless the computed type
already contains `None` as a substring (a syntactic check, which also
fires on choice literals such as `'None'`), in which case the type is
kept unchanged; required fields and fields with neither flag never get
the extra alternative. -/
theorem C5_absent_value_amended :
    ∀ f : IDDField,
      (f.required = false → f.allows_blank = true ∨ f.has_default = true →
        (pyIn "None".toList (py_type f) = true → slot_type f = py_type f)
        ∧ (pyIn "None".toList (py_type f) = false →
            slot_type f = py_type f ++ " | None".toList
            ∧ admits_none (slot_type f) = true))
      ∧ (f.required = true ∨ (f.allows_blank = false ∧ f.has_default = false) →
          slot_type f = py_type f) := by
  intro f
  constructor
  · intro hr hbd
    have hcond : ((f.allows_blank || f.has_default) && !f.required) = true := by
      rcases hbd with h | h <;> simp [h, hr]
    constructor
    · intro hin
      simp only [slot_type]
      rw [hcond, if_pos rfl, hin, if_pos rfl]
    · intro hin
      have heq : slot_type f = py_type f ++ " | None".toList := by
        simp only [slot_type]
        rw [hcond, if_pos rfl, hin, if_neg Bool.false_ne_true]
      exact ⟨heq, by rw [heq]; exact admits_none_append _⟩
  · intro h
    have hcond : ((f.allows_blank || f.has_default) && !f.required) = false := by
      rcases h with h | ⟨h1, h2⟩
      · simp [h]
      · simp [h1, h2]
    simp only [slot_type]
    rw [hcond, if_neg Bool.false_ne_true]

/-- Every per-key overload line is a signature line. -/
theorem is_sig_sig_line (o : IDDObject) : is_sig (sig_line o) = true := by
  simp only [is_sig, sig_line, pyStartsWith, List.append_assoc]
  rw [List.isPrefixOf_iff_prefix]
  exact List.IsPrefix.trans (by decide) (List.prefix_append _ _)

/-- A per-key signature differs from the catch-all (they disagree at
position 32: `Literal['` against `str`). -/
theorem sig_line_ne_fallback (o : IDDObject) : sig_line o ≠ fallback_sig := by
  intro h
  have h32 : (sig_line o)[32]? = fallback_sig[32]? := by rw [h]
  simp only [sig_line, List.append_assoc] at h32
  have hlen : 32 < ("    def newidfobject(self, key: Literal['".toList).length := by decide
  rw [List.getElem?_append_left hlen] at h32
  exact absurd h32 (by decide)

/-- Filtering the `@overload`/signature pairs keeps the signatures. -/
theorem pairs_filter (l : List IDDObject) :
    (l.flatMap (fun o => ["    @overload".toList, sig_line o])).filter is_sig
      = l.map sig_line := by
  induction l with
  | nil => simp
  | cons o rest ih =>
    have hov : ¬ is_sig "    @overload".toList = true := by decide
    rw [List.flatMap_cons, List.filter_append, ih, List.filter_cons, List.filter_cons,
      List.filter_nil, if_neg hov, if_pos (is_sig_sig_line o), List.singleton_append,
      List.map_cons]

/-- The signature lines of the overload artifact: the sorted per-key
signatures followed by the catch-all. -/
theorem overloads_filter (objs : List IDDObject) :
    (emit_idf_overloads objs).filter is_sig
      = (sortObjs objs).map sig_line ++ [fallback_sig] := by
  have h1 : List.filter is_sig
      ["from __future__ import annotations".toList,
       "from typing import overload, Unpack, Literal".toList,
       "from .bunch import EPBunch".toList,
       "from ._kwargs import *".toList,
       [],
       "class _IDFOverloads:".toList] = [] := by decide
  have h2 : List.filter is_sig [fallback_sig, []] = [fallback_sig] := by decide
  simp only [emit_idf_overloads, List.filter_append, h1, pairs_filter, h2,
    List.nil_append]

/-- C6: in the overload artifact, the untyped any-key fallback
signature is emitted exactly once and is the last signature, after all
specific-key signatures. -/
theorem C6_fallback_last :
    ∀ objs : List IDDObject,
      ((emit_idf_overloads objs).filter is_sig).getLast? = some fallback_sig
      ∧ ((emit_idf_overloads objs).filter is_sig).count fallback_sig = 1 := by
  intro objs
  rw [overloads_filter]
  constructor
  · simp [List.getLast?_append]
  · rw [List.count_append]
    have h0 : ((sortObjs objs).map sig_line).count fallback_sig = 0 := by
      rw [List.count_eq_zero]
      intro hmem
      obtain ⟨o, _, heq⟩ := List.mem_map.mp hmem
      exact sig_line_ne_fallback o heq
    rw [h0]
    simp

/-- The sorted object list is a permutation of the input. -/
theorem sortObjs_perm (l : List IDDObject) : (sortObjs l).Perm l :=
  List.perm_insertionSort keyLe l

/-- The sorted object list is sorted under the key comparison. -/
theorem sortObjs_sorted (l : List IDDObject) : List.Sorted keyLe (sortObjs l) :=
  List.sorted_insertionSort keyLe l

/-- With pairwise-distinct keys, key-sortedness is strict. -/
theorem sorted_keyLt_of_nodup {l : List IDDObject}
    (hs : List.Sorted keyLe l) (hn : (l.map IDDObject.key).Nodup) :
    List.Sorted keyLt l := by
  have hne : l.Pairwise (fun a b => a.key ≠ b.key) := by
    rw [List.Nodup, List.pairwise_map] at hn
    exact hn
  exact (hs.and hne).imp (fun h => lt_of_le_of_ne h.1 h.2)

/-- With pairwise-distinct keys, sorting is permutation-invariant. -/
theorem sortObjs_eq_of_perm {l₁ l₂ : List IDDObject}
    (h : l₁.Perm l₂) (hn : (l₁.map IDDObject.key).Nodup) :
    sortObjs l₁ = sortObjs l₂ := by
  have hn2 : (l₂.map IDDObject.key).Nodup := ((h.map IDDObject.key).nodup_iff).mp hn
  have hp : (sortObjs l₁).Perm (sortObjs l₂) :=
    (sortObjs_perm l₁).trans (h.trans (sortObjs_perm l₂).symm)
  have hs1 : List.Sorted keyLt (sortObjs l₁) :=
    sorted_keyLt_of_nodup (sortObjs_sorted l₁)
      (((sortObjs_perm l₁).map IDDObject.key).nodup_iff.mpr hn)
  have hs2 : List.Sorted keyLt (sortObjs l₂) :=
    sorted_keyLt_of_nodup (sortObjs_sorted l₂)
      (((sortObjs_perm l₂).map IDDObject.key).nodup_iff.mpr hn2)
  exact List.eq_of_perm_of_sorted hp hs1 hs2

/-- C7 counterexample: with two distinct objects sharing the key `A`,
swapping the input order changes the field-set artifact, because the
stable sort keeps equal keys in input order — so permutation
invariance fails without distinct keys. -/
theorem C7_duplicate_key_counterexample :
    ([cexDupA1, cexDupA2] : List IDDObject).Perm [cexDupA2, cexDupA1]
    ∧ emit_kwarg_typeddicts [cexDupA1, cexDupA2] []
        ≠ emit_kwarg_typeddicts [cexDupA2, cexDupA1] [] := by
  constructor
  · exact List.Perm.swap _ _ _
  · decide

/-- C7 (amended): both emitters render declarations sorted
lexicographically by object key, and — provided the keys are pairwise
distinct — the output is identical for every permutation of the input
list. -/
theorem C7_lexicographic_and_order_independent :
    ∀ (objs objs' : List IDDObject) (header : List Char),
      objs.Perm objs' → (objs.map IDDObject.key).Nodup →
      List.Sorted (· ≤ ·) ((sortObjs objs).map IDDObject.key)
      ∧ emit_kwarg_typeddicts objs header = emit_kwarg_typeddicts objs' header
      ∧ emit_idf_overloads objs = emit_idf_overloads objs' := by
  intro objs objs' header hp hn
  have he := sortObjs_eq_of_perm hp hn
  refine ⟨?_, ?_, ?_⟩
  · exact List.pairwise_map.mpr (sortObjs_sorted objs)
  · simp only [emit_kwarg_typeddicts, he]
  · simp only [emit_idf_overloads, he]

/-- Witness for C7: two objects with distinct keys `A`, `B` emitted
identically from either input order. -/
theorem C7_lexicographic_and_order_independent_witness :
    emit_kwarg_typeddicts [(⟨"B".toList, []⟩ : IDDObject), ⟨"A".toList, []⟩] []
      = emit_kwarg_typeddicts [⟨"A".toList, []⟩, ⟨"B".toList, []⟩] []
    ∧ emit_idf_overloads [(⟨"B".toList, []⟩ : IDDObject), ⟨"A".toList, []⟩]
      = emit_idf_overloads [⟨"A".toList, []⟩, ⟨"B".toList, []⟩] := by
  have h := C7_lexicographic_and_order_independent
    [⟨"B".toList, []⟩, ⟨"A".toList, []⟩] [⟨"A".toList, []⟩, ⟨"B".toList, []⟩] []
    (List.Perm.swap _ _ _) (by decide)
  exact ⟨h.2.1, h.2.2⟩

/-- Valid code points below the surrogate range round-trip. -/
theorem toNat_ofNat_valid (n : Nat) (h : n < 55296) : (Char.ofNat n).toNat = n := by
  have hv : n.isValidChar := Or.inl h
  unfold Char.ofNat
  rw [dif_pos hv]
  rfl

/-- Lowercasing keeps ASCII alphanumerics alphanumeric, never an
underscore. -/
theorem pyLowerChar_alnum (c : Char) (h : pyIsAlnum c = true) :
    pyIsAlnum (pyLowerChar c) = true ∧ pyLowerChar c ≠ '_' := by
  have hranges : (48 ≤ c.toNat ∧ c.toNat ≤ 57) ∨ (65 ≤ c.toNat ∧ c.toNat ≤ 90)
      ∨ (97 ≤ c.toNat ∧ c.toNat ≤ 122) := by
    simp only [pyIsAlnum, pyIsDigit, pyIsUpper, pyIsLower, Bool.or_eq_true,
      Bool.and_eq_true, decide_eq_true_eq] at h
    tauto
  have h95 : ('_' : Char).toNat = 95 := by decide
  unfold pyLowerChar
  by_cases hu : 65 ≤ c.toNat ∧ c.toNat ≤ 90
  · rw [if_pos hu]
    have ht := toNat_ofNat_valid (c.toNat + 32) (by omega)
    constructor
    · simp only [pyIsAlnum, pyIsDigit, pyIsUpper, pyIsLower, Bool.or_eq_true,
        Bool.and_eq_true, decide_eq_true_eq]
      refine Or.inr ⟨?_, ?_⟩ <;> rw [ht] <;> omega
    · intro heq
      have := congrArg Char.toNat heq
      rw [ht, h95] at this
      omega
  · rw [if_neg hu]
    refine ⟨h, ?_⟩
    intro heq
    have := congrArg Char.toNat heq
    rw [h95] at this
    rcases hranges with h' | h' | h' <;> omega

/-- Characters of the mapped label are underscores or alphanumerics. -/
theorem mapped_chars (label : List Char) :
    ∀ d ∈ label.map (fun ch => if pyIsAlnum ch then pyLowerChar ch else '_'),
      d = '_' ∨ pyIsAlnum d = true := by
  intro d hd
  obtain ⟨c, _, rfl⟩ := List.mem_map.mp hd
  by_cases h : pyIsAlnum c = true
  · right
    rw [if_pos h]
    exact (pyLowerChar_alnum c h).1
  · left
    rw [if_neg h]

/-- Characters of a joined group list are separators or group members. -/
theorem pyJoinUnd_chars :
    ∀ (gs : List (List Char)) (c : Char), c ∈ pyJoinUnd gs → c = '_' ∨ ∃ g ∈ gs, c ∈ g := by
  intro gs
  induction gs with
  | nil => intro c hc; simp [pyJoinUnd] at hc
  | cons g rest ih =>
    cases rest with
    | nil =>
      intro c hc
      simp only [pyJoinUnd] at hc
      exact Or.inr ⟨g, by simp, hc⟩
    | cons g1 rest1 =>
      intro c hc
      simp only [pyJoinUnd] at hc
      rcases List.mem_append.mp hc with h | h
      · exact Or.inr ⟨g, by simp, h⟩
      · rcases List.mem_cons.mp h with h | h
        · exact Or.inl h
        · rcases ih c h with h' | ⟨g', hg', hc'⟩
          · exact Or.inl h'
          · exact Or.inr ⟨g', by simp [hg'], hc'⟩

/-- The head of a join is the head of the first (non-empty) group. -/
theorem pyJoinUnd_head (g : List Char) (gs : List (List Char)) (hg : g ≠ []) :
    (pyJoinUnd (g :: gs)).head? = g.head? := by
  cases gs with
  | nil => simp [pyJoinUnd]
  | cons g1 r =>
    cases g with
    | nil => exact absurd rfl hg
    | cons a t => simp [pyJoinUnd]

/-- Core of the identifier-validity argument: splitting a mapped label
on underscores, dropping empty groups, joining with single underscores
and prefixing a digit-initial result yields a valid identifier, given
at least one non-underscore (alphanumeric) character. -/
theorem valid_core (m : List Char)
    (hchars : ∀ d ∈ m, d = '_' ∨ pyIsAlnum d = true)
    (hex : ∃ d ∈ m, d ≠ '_') :
    isValidIdentifier
      (if pyJoinUnd ((pySplitChar '_' m).filter (· ≠ [])) ≠ []
          ∧ pyIsDigit ((pyJoinUnd ((pySplitChar '_' m).filter (· ≠ []))).headD ' ')
        then '_' :: pyJoinUnd ((pySplitChar '_' m).filter (· ≠ []))
        else pyJoinUnd ((pySplitChar '_' m).filter (· ≠ []))) = true := by
  obtain ⟨d0, hd0, hd0ne⟩ := hex
  obtain ⟨g, hg, hgne⟩ := pySplitChar_exists_ne_nil '_' m ⟨d0, hd0, hd0ne⟩
  have hgf : g ∈ (pySplitChar '_' m).filter (· ≠ []) :=
    List.mem_filter.mpr ⟨hg, by simpa using hgne⟩
  have hchar : ∀ g' ∈ (pySplitChar '_' m).filter (· ≠ []), ∀ c ∈ g', pyIsAlnum c = true := by
    intro g' hg' c hc
    have hmem := (List.mem_filter.mp hg').1
    have hin := pySplitChar_mem '_' m g' c hmem hc
    rcases hchars c hin.1 with h' | h'
    · exact absurd h' hin.2
    · exact h'
  cases hgroups : (pySplitChar '_' m).filter (· ≠ []) with
  | nil =>
    rw [hgroups] at hgf
    simp at hgf
  | cons g0 gr =>
    have hg0 : g0 ∈ (pySplitChar '_' m).filter (· ≠ []) := by
      rw [hgroups]
      exact List.mem_cons_self _ _
    have hg0ne : g0 ≠ [] := by simpa using (List.mem_filter.mp hg0).2
    have hjoin : ∀ c ∈ pyJoinUnd (g0 :: gr), pyIsAlnum c = true ∨ c = '_' := by
      intro c hc
      rcases pyJoinUnd_chars (g0 :: gr) c hc with h' | ⟨g', hg', hc'⟩
      · exact Or.inr h'
      · refine Or.inl (hchar g' ?_ c hc')
        rw [hgroups]
        exact hg'
    obtain ⟨a, t, hat⟩ : ∃ a t, g0 = a :: t := by
      cases g0 with
      | nil => exact absurd rfl hg0ne
      | cons a t => exact ⟨a, t, rfl⟩
    have hhead : (pyJoinUnd (g0 :: gr)).head? = some a := by
      rw [pyJoinUnd_head g0 gr hg0ne, hat]
      rfl
    obtain ⟨s', hs⟩ : ∃ s', pyJoinUnd (g0 :: gr) = a :: s' := by
      cases hsj : pyJoinUnd (g0 :: gr) with
      | nil => rw [hsj] at hhead; simp at hhead
      | cons x xs =>
        rw [hsj] at hhead
        simp only [List.head?_cons, Option.some_inj] at hhead
        exact ⟨xs, by rw [hhead]⟩
    have ha : pyIsAlnum a = true := by
      refine hchar g0 hg0 a ?_
      rw [hat]
      exact List.mem_cons_self _ _
    have hsall : ∀ c ∈ s', (pyIsAlnum c || c = '_') = true := by
      intro c hc
      have hcj : c ∈ pyJoinUnd (g0 :: gr) := by
        rw [hs]
        exact List.mem_cons_of_mem a hc
      rcases hjoin c hcj with h' | h'
      · simp [h']
      · simp [h']
    rw [hs]
    by_cases hd : pyIsDigit a = true
    · have hpos : (a :: s' : List Char) ≠ [] ∧ pyIsDigit ((a :: s').headD ' ') = true :=
        ⟨List.cons_ne_nil a s', by simpa using hd⟩
      rw [if_pos hpos]
      simp only [isValidIdentifier, Bool.and_eq_true]
      refine ⟨by decide, ?_⟩
      rw [List.all_cons, Bool.and_eq_true]
      refine ⟨by simp [ha], ?_⟩
      rw [List.all_eq_true]
      exact hsall
    · have hneg : ¬((a :: s' : List Char) ≠ [] ∧ pyIsDigit ((a :: s').headD ' ') = true) := by
        rintro ⟨-, hdig⟩
        simp only [List.headD_cons] at hdig
        exact hd hdig
      rw [if_neg hneg]
      simp only [isValidIdentifier, Bool.and_eq_true]
      constructor
      · have ha' := ha
        simp only [pyIsAlnum, Bool.or_eq_true] at ha'
        rcases ha' with (h' | h') | h'
        · exact absurd h' hd
        · simp [h']
        · simp [h']
      · rw [List.all_eq_true]
        exact hsall

/-- Any label with at least one alphanumeric character synthesizes a
valid identifier. -/
theorem snake_case_valid (label : List Char) (h : ∃ c ∈ label, pyIsAlnum c = true) :
    isValidIdentifier (snake_case label) = true := by
  obtain ⟨c0, hc0, hal⟩ := h
  have hmem : pyLowerChar c0 ∈
      label.map (fun ch => if pyIsAlnum ch then pyLowerChar ch else '_') := by
    have := List.mem_map_of_mem (fun ch => if pyIsAlnum ch then pyLowerChar ch else '_') hc0
    simpa [hal] using this
  have hex : ∃ d ∈ label.map (fun ch => if pyIsAlnum ch then pyLowerChar ch else '_'),
      d ≠ '_' := ⟨pyLowerChar c0, hmem, (pyLowerChar_alnum c0 hal).2⟩
  have := valid_core (label.map (fun ch => if pyIsAlnum ch then pyLowerChar ch else '_'))
    (mapped_chars label) hex
  simpa only [snake_case] using this

/-- C8 counterexample: the empty field label (producible by a bare
`\field` directive) synthesizes the empty slot name, which is not a
valid identifier — the unconditional validity claim fails there. -/
theorem C8_empty_label_counterexample :
    snake_case "".toList = [] ∧ isValidIdentifier (snake_case "".toList) = false := by
  exact ⟨by decide, by decide⟩

/-- C8 (amended): `BUILDINGSURFACE:DETAILED` synthesizes
`BUILDINGSURFACE_DETAILED_Kwargs`, `X-Coordinate of Origin` synthesizes
`x_coordinate_of_origin`, and every label containing at least one
alphanumeric character synthesizes a valid identifier. -/
theorem C8_identifier_synthesis :
    kwargs_typeddict_name "BUILDINGSURFACE:DETAILED".toList
      = "BUILDINGSURFACE_DETAILED_Kwargs".toList
    ∧ snake_case "X-Coordinate of Origin".toList = "x_coordinate_of_origin".toList
    ∧ ∀ label : List Char, (∃ c ∈ label, pyIsAlnum c = true) →
        isValidIdentifier (snake_case label) = true :=
  ⟨by decide, by decide, snake_case_valid⟩

/-- C9: key directive values: a pure digit string parses to its
integer, an integral float converts to the integer (so `1` and `1.0`
agree), a non-integral float or unparsable text keeps the trimmed
string — and every value becomes either an integer or the original
trimmed string. -/
theorem C9_choice_value_normalization :
    parse_choice "1".toList = .intVal 1
    ∧ parse_choice "1.0".toList = .intVal 1
    ∧ parse_choice "1.5".toList = .strVal "1.5".toList
    ∧ parse_choice "Yes".toList = .strVal "Yes".toList
    ∧ ∀ val : List Char,
        (∃ n : Int, parse_choice val = .intVal n)
        ∨ parse_choice val = .strVal (pyStrip val) := by
  refine ⟨by decide, by decide, by decide, by decide, ?_⟩
  intro val
  simp only [parse_choice]
  split
  · exact Or.inl ⟨_, rfl⟩
  · split
    · split
      · exact Or.inl ⟨_, rfl⟩
      · split
        · exact Or.inl ⟨_, rfl⟩
        · exact Or.inr rfl
    · exact Or.inr rfl

/-- C10: on the empty object list, the field-set emitter writes only
the import preamble and the optional header comment (no record
declarations), and the overload emitter writes exactly one signature,
the untyped catch-all; neither fails. -/
theorem C10_empty_object_list :
    ∀ header : List Char,
      emit_kwarg_typeddicts [] header =
        ["from __future__ import annotations".toList,
         "from typing import TypedDict, Required, NotRequired, Literal".toList, []]
        ++ (if header ≠ [] then ["# ".toList ++ header, []] else [])
      ∧ (emit_kwarg_typeddicts [] header).filter
          (fun l => pyStartsWith l "class ".toList) = []
      ∧ (emit_idf_overloads []).filter is_sig = [fallback_sig] := by
  intro header
  refine ⟨?_, ?_, ?_⟩
  · simp [emit_kwarg_typeddicts, sortObjs, List.insertionSort]
  · by_cases hh : header = []
    · subst hh
      decide
    · have h1 : pyStartsWith "from __future__ import annotations".toList
          "class ".toList = false := by decide
      have h2 : pyStartsWith "from typing import TypedDict, Required, NotRequired, Literal".toList
          "class ".toList = false := by decide
      have h3 : pyStartsWith ([] : List Char) "class ".toList = false := by decide
      have h4 : pyStartsWith ("# ".toList ++ header) "class ".toList = false := by
        simp [pyStartsWith, List.isPrefixOf]
      rw [emit_kwarg_typeddicts]
      rw [if_pos hh]
      simp only [sortObjs, List.insertionSort, List.flatMap_nil, List.append_nil]
      rw [List.filter_append]
      rw [show List.filter (fun l => pyStartsWith l "class ".toList)
            ["from __future__ import annotations".toList,
             "from typing import TypedDict, Required, NotRequired, Literal".toList, []]
          = [] from by decide]
      rw [List.filter_cons, if_neg (by rw [h4]; exact Bool.false_ne_true),
        List.filter_cons, if_neg (by rw [h3]; exact Bool.false_ne_true), List.filter_nil]
      rfl
  · decide

end EppyBuilder

